import Mathlib

/-!
# A shallow embedding of the squirrel connection pool

This file embeds the behaviour of squirrel.py, a bounded asynchronous
PostgreSQL connection pool built on tornado and psycopg2, and proves the
specified properties of it.

Modelling choices:

* Connections and requests are identified by natural numbers; fresh
  identifiers come from counters in the state.
* The pool state mirrors the attributes of ConnectionPool: the idle
  deque self.connections (head is the left end), the pending deque
  self.queue of dispatch closures (represented by the ids of the
  requests they will serve), the counter self.owed (a Python int,
  modelled as Int), and the flag self._closed.  In addition the state
  tracks the connections currently being established by an in-flight
  dispatch, the connections held by live CursorFairy handles, the set of
  connections on which close was called, and two pieces of history
  instrumentation: the request ids in admission order, and the number of
  io_loop.add_callback(self._process_queue) callbacks still pending.
* The asynchronous parts (completion of the poll started by a dispatch,
  dereference of a fairy, execution of a scheduled callback) are driven
  by an explicit event type; any event sequence produces a reachable
  state.
* The poller (class poll) is embedded separately as a pure function from
  the outcome of connection.poll and the events argument to the list of
  observable effects of one tick invocation, in program order.  Success
  of a tick is the invocation of self.callback; failure is the exception
  that tick re-raises after clearing self.callback, which the enclosing
  stack context delivers to the single waiter (the gen.Task yield point
  inside ConnectionPool._dispatch).  Both are one delivery on the same
  result-or-error channel, modelled by the Completion type.
* The source is Python 2: an ordered comparison with None treats None as
  smaller than every integer, which matters when STATE_MAP.get misses.
-/

namespace Squirrel

/-! ## Poller: class poll and STATE_MAP -/

/-- The value returned by a call of connection.poll that does not raise:
one of the four psycopg2 poll constants, or any other value, for which
the dict lookup STATE_MAP.get yields None. -/
inductive PollState where
  | pollOk
  | pollRead
  | pollWrite
  | pollError
  | other
deriving DecidableEq, Repr

/-- One call of connection.poll either returns a state or raises. -/
inductive PollResult where
  | returns (st : PollState)
  | raises
deriving DecidableEq, Repr

/-- The error a failing tick delivers: either the exception raised by
connection.poll itself, or the OperationalError that tick raises for an
unknown or error poll state. -/
inductive PollError where
  | raised
  | unknownState
deriving DecidableEq, Repr

/-- The result-or-error delivery of one poll lifecycle.  Success is the
invocation of self.callback; failure is the exception propagated (after
self.callback has been cleared) through the enclosing stack context to
the single waiter. -/
inductive Completion where
  | success
  | failure (e : PollError)
deriving DecidableEq, Repr

/-- The observable effects of one invocation of poll.tick, recorded in
program order: reactor handler operations and at most one completion. -/
inductive Action where
  | add (mask : Int)
  | update (mask : Int)
  | remove
  | complete (r : Completion)
deriving DecidableEq, Repr

/-- tornado IOLoop readiness constant READ = 0x001. -/
def ioloopREAD : Int := 1

/-- tornado IOLoop readiness constant WRITE = 0x004. -/
def ioloopWRITE : Int := 4

/-- tornado IOLoop readiness constant ERROR = 0x018. -/
def ioloopERROR : Int := 24

/-- The STATE_MAP dict of squirrel.py.  The bit masks are disjoint, so
the bitwise or of the source is a plain sum here.  A key that is not one
of the four poll constants makes STATE_MAP.get return None. -/
def STATE_MAP : PollState → Option Int
  | .pollOk => some 0
  | .pollRead => some (ioloopERROR + ioloopREAD)
  | .pollWrite => some (ioloopERROR + ioloopWRITE)
  | .pollError => some (-1)
  | .other => none

/-- Python 2 evaluation of mask > 0 where mask may be None: None is
smaller than every integer. -/
def pyGt0 : Option Int → Bool
  | none => false
  | some m => decide (0 < m)

/-- Python 2 evaluation of mask < 0 where mask may be None. -/
def pyLt0 : Option Int → Bool
  | none => true
  | some m => decide (m < 0)

/-- poll.tick.  The events argument is 0 on the first invocation (made
by the poll constructor) and the fired readiness bit set, a positive
number, on every reactor-delivered invocation.  The body mirrors the
try/except/finally of the source: mask starts at -1 and is replaced by
STATE_MAP.get(connection.poll()); a positive mask registers (events
equal to 0) or updates (events positive) the handler; a negative or None
mask raises OperationalError; an exception clears self.callback and
re-raises; finally, a non-positive mask removes the handler when one is
registered, and a zero mask invokes self.callback. -/
def tick (events : Nat) (res : PollResult) : List Action :=
  match res with
  | .raises =>
      (if events ≠ 0 then [Action.remove] else [])
        ++ [Action.complete (Completion.failure PollError.raised)]
  | .returns st =>
      let mask := STATE_MAP st
      if pyGt0 mask then
        if events = 0 then [Action.add (mask.getD 0)]
        else [Action.update (mask.getD 0)]
      else if pyLt0 mask then
        (if events ≠ 0 then [Action.remove] else [])
          ++ [Action.complete (Completion.failure PollError.unknownState)]
      else
        (if events ≠ 0 then [Action.remove] else [])
          ++ [Action.complete Completion.success]

/-- A poll result on which tick finishes the lifecycle (removes any
handler and delivers success or failure) rather than keeping a reactor
subscription alive. -/
def isTerminal : PollResult → Bool
  | .returns .pollRead => false
  | .returns .pollWrite => false
  | _ => true

/-- The completion a terminal tick delivers for a given poll result.
The values for pollRead and pollWrite are irrelevant: those results are
not terminal and deliver no completion. -/
def completionOfResult : PollResult → Completion
  | .raises => Completion.failure PollError.raised
  | .returns .pollOk => Completion.success
  | .returns .pollError => Completion.failure PollError.unknownState
  | .returns .other => Completion.failure PollError.unknownState
  | .returns .pollRead => Completion.success
  | .returns .pollWrite => Completion.success

/-- One poll lifecycle over a list of successive connection.poll
outcomes: the constructor invokes tick with events equal to 0; while the
tick keeps a subscription alive the reactor invokes tick again with the
fired readiness bits, a positive value (tick only distinguishes zero
from positive events, see tick_events_pos below, so 1 is a faithful
representative); a terminal tick removes the subscription, after which
the reactor never invokes tick again. -/
def runPollerGo : Nat → List PollResult → List (List Action)
  | _, [] => []
  | events, r :: rs =>
      let acts := tick events r
      if isTerminal r then [acts]
      else acts :: runPollerGo 1 rs

/-- The per-invocation action lists of one poll lifecycle. -/
def ticksOf (rs : List PollResult) : List (List Action) :=
  runPollerGo 0 rs

/-- The flat action trace of one poll lifecycle. -/
def pollerActions (rs : List PollResult) : List Action :=
  (ticksOf rs).flatten

/-- The completions occurring in an action trace. -/
def completions (acts : List Action) : List Completion :=
  acts.filterMap fun a =>
    match a with
    | Action.complete r => some r
    | _ => none

/-- Whether an action registers a new reactor handler. -/
def isAddAction : Action → Bool
  | Action.add _ => true
  | _ => false

/-- The readiness mask tick passes to the reactor for a poll result that
needs further I/O. -/
def maskOf : PollResult → Int
  | .returns st => (STATE_MAP st).getD 0
  | .raises => 0

/-! ## ConnectionPool -/

/-- The state of a ConnectionPool together with its environment.

Fields taken directly from the source object: maxConnections, idle
(self.connections, head is the left end of the deque), queue (self.queue,
the pending dispatch closures represented by their request ids, head is
the left end), owed and closed (self._closed).

Fields describing the connections the pool handed out: establishing are
the connections popped or created by an in-flight _dispatch whose poll
has not completed, leased are the connections held by live CursorFairy
handles (self._refs holds one weak reference per such fairy), and
closedConns are the connections whose close method has been called.

Counters nextConn and nextReq supply fresh identifiers.  admitted is
history instrumentation recording the request ids in the order
_process_queue popped and ran them.  scanScheduled counts the
io_loop.add_callback(self._process_queue) callbacks scheduled by
_on_fairy_deref and not yet executed. -/
structure PoolState where
  maxConnections : Nat
  idle : List Nat
  queue : List Nat
  owed : Int
  closed : Bool
  establishing : List Nat
  leased : List Nat
  closedConns : List Nat
  nextConn : Nat
  nextReq : Nat
  admitted : List Nat
  scanScheduled : Nat
deriving DecidableEq, Repr

/-- ConnectionPool.__init__ with a given max_connections. -/
def mkPool (m : Nat) : PoolState :=
  { maxConnections := m
    idle := []
    queue := []
    owed := 0
    closed := false
    establishing := []
    leased := []
    closedConns := []
    nextConn := 0
    nextReq := 0
    admitted := []
    scanScheduled := 0 }

namespace ConnectionPool

/-- The synchronous prefix of ConnectionPool._dispatch for request r, up
to the yield: pop the left end of the idle deque, or, when that raises
IndexError, open a new connection; the connection then awaits its poll
cycle.  The admission is recorded in the history field. -/
def dispatch (s : PoolState) (r : Nat) : PoolState :=
  match s.idle with
  | c :: rest =>
      { s with
        idle := rest
        establishing := s.establishing ++ [c]
        admitted := s.admitted ++ [r] }
  | [] =>
      { s with
        nextConn := s.nextConn + 1
        establishing := s.establishing ++ [s.nextConn]
        admitted := s.admitted ++ [r] }

/-- The loop of ConnectionPool._process_queue, with fuel: while the
queue is non-empty and owed < max_connections, increment owed, pop the
left end of the queue and run its dispatch. -/
def processQueueGo : Nat → PoolState → PoolState
  | 0, s => s
  | fuel + 1, s =>
      match s.queue with
      | [] => s
      | r :: rest =>
          if s.owed < (s.maxConnections : Int) then
            processQueueGo fuel (dispatch { s with owed := s.owed + 1, queue := rest } r)
          else s

/-- ConnectionPool._process_queue.  Each loop iteration pops one queue
element and dispatch never touches the queue, so the initial queue
length is enough fuel. -/
def processQueue (s : PoolState) : PoolState :=
  processQueueGo s.queue.length s

/-- ConnectionPool.cursor: append a dispatch closure for a fresh request
to the queue, then run the admission scan. -/
def cursor (s : PoolState) : PoolState :=
  processQueue { s with queue := s.queue ++ [s.nextReq], nextReq := s.nextReq + 1 }

/-- ConnectionPool.close: mark the pool closed, then pop connections off
the right end of the idle deque and close each until the deque is empty. -/
def close (s : PoolState) : PoolState :=
  { s with
    closed := true
    closedConns := s.closedConns ++ s.idle.reverse
    idle := [] }

/-- ConnectionPool._checkin: decrement owed; on an error close the
connection; otherwise close it when the pool is closed; otherwise append
it to the idle deque unless the connection is already closed. -/
def checkin (s : PoolState) (c : Nat) (err : Bool) : PoolState :=
  let s1 := { s with owed := s.owed - 1 }
  if err then
    { s1 with closedConns := s1.closedConns ++ [c] }
  else if s1.closed then
    { s1 with closedConns := s1.closedConns ++ [c] }
  else if s1.closedConns.contains c then
    s1
  else
    { s1 with idle := s1.idle ++ [c] }

/-- Successful completion of the poll cycle started by a dispatch for
connection c: _dispatch builds a fairy around connection.cursor() and
invokes the caller callback, so c becomes leased. -/
def pollOk (s : PoolState) (c : Nat) : PoolState :=
  if s.establishing.contains c then
    { s with
      establishing := s.establishing.erase c
      leased := s.leased ++ [c] }
  else s

/-- Failing completion of the poll cycle started by a dispatch for
connection c: the except clause of _dispatch runs _checkin(connection, e)
and re-raises.  Nothing on this path runs or schedules _process_queue. -/
def pollFail (s : PoolState) (c : Nat) : PoolState :=
  if s.establishing.contains c then
    checkin { s with establishing := s.establishing.erase c } c true
  else s

/-- ConnectionPool._on_fairy_deref for the fairy holding connection c:
the weak reference fires once when the fairy dies, _checkin runs with no
error, and _process_queue is scheduled on the io loop. -/
def onFairyDeref (s : PoolState) (c : Nat) : PoolState :=
  if s.leased.contains c then
    let s1 := checkin { s with leased := s.leased.erase c } c false
    { s1 with scanScheduled := s1.scanScheduled + 1 }
  else s

/-- Execution of one callback scheduled by _on_fairy_deref. -/
def runScheduledScan (s : PoolState) : PoolState :=
  if s.scanScheduled ≠ 0 then
    processQueue { s with scanScheduled := s.scanScheduled - 1 }
  else s

end ConnectionPool

/-- The state reached from a fresh pool with max_connections m after N
cursor calls and nothing else: the first min N m requests are admitted
immediately, each opening a fresh connection, and the rest wait in the
queue in submission order. -/
def cursorOnlyState (m N : Nat) : PoolState :=
  { maxConnections := m
    idle := []
    queue := (List.range N).drop m
    owed := ((min N m : Nat) : Int)
    closed := false
    establishing := List.range (min N m)
    leased := []
    closedConns := []
    nextConn := min N m
    nextReq := N
    admitted := List.range (min N m)
    scanScheduled := 0 }

/-- A sample mid-flight pool state: request 3 queued, connection 7 being
established for an admitted request, connection 5 leased, one admission
scan scheduled. -/
def samplePool : PoolState :=
  { maxConnections := 2
    idle := []
    queue := [3]
    owed := 1
    closed := false
    establishing := [7]
    leased := [5]
    closedConns := []
    nextConn := 8
    nextReq := 4
    admitted := [0]
    scanScheduled := 1 }

/-- A sample pool state holding two idle connections, 4 returned before 9. -/
def sampleIdlePool : PoolState :=
  { maxConnections := 3
    idle := [4, 9]
    queue := []
    owed := 0
    closed := false
    establishing := []
    leased := []
    closedConns := []
    nextConn := 10
    nextReq := 2
    admitted := [0, 1]
    scanScheduled := 0 }

/-- The events that drive a pool: a cursor call, completion (successful
or failing) of the poll started by a dispatch, death of a fairy, a close
call, and execution of a scheduled admission scan. -/
inductive Event where
  | cursor
  | pollOk (c : Nat)
  | pollFail (c : Nat)
  | deref (c : Nat)
  | close
  | procQueue
deriving DecidableEq, Repr

/-- One event applied to a pool state. -/
def step (s : PoolState) : Event → PoolState
  | .cursor => ConnectionPool.cursor s
  | .pollOk c => ConnectionPool.pollOk s c
  | .pollFail c => ConnectionPool.pollFail s c
  | .deref c => ConnectionPool.onFairyDeref s c
  | .close => ConnectionPool.close s
  | .procQueue => ConnectionPool.runScheduledScan s

/-- A sequence of events applied to a pool state. -/
def run (s : PoolState) (evs : List Event) : PoolState :=
  evs.foldl step s

/-! ## CursorFairy: the connection property and its warn-once flag -/

/-- The state relevant to CursorFairy.connection: the class attribute
CONNECTION_WARN and, for every fairy instance, the instance attribute of
the same name when one has been assigned.  Reading self.CONNECTION_WARN
falls back to the class attribute while no instance attribute exists;
the assignment self.CONNECTION_WARN = True creates an instance attribute
and leaves the class attribute untouched. -/
structure FairyWorld where
  classWarn : Bool
  instWarn : Nat → Option Bool

/-- The initial world: CONNECTION_WARN = False on the class, no instance
attributes. -/
def freshFairyWorld : FairyWorld :=
  { classWarn := false, instWarn := fun _ => none }

namespace CursorFairy

/-- The value Python attribute lookup gives self.CONNECTION_WARN on
fairy i. -/
def readWarnFlag (w : FairyWorld) (i : Nat) : Bool :=
  (w.instWarn i).getD w.classWarn

/-- One evaluation of the CursorFairy.connection property on fairy i.
Returns whether a warning was logged, together with the new world. -/
def connectionAccess (w : FairyWorld) (i : Nat) : Bool × FairyWorld :=
  if readWarnFlag w i then
    (false, w)
  else
    (true, { w with instWarn := fun j => if j = i then some true else w.instWarn j })

/-- n successive evaluations of the connection property on fairy i,
counting the warnings logged. -/
def accessRepeat (w : FairyWorld) (i : Nat) : Nat → Nat × FairyWorld
  | 0 => (0, w)
  | n + 1 =>
      let p := connectionAccess w i
      let q := accessRepeat p.2 i n
      ((if p.1 then 1 else 0) + q.1, q.2)

end CursorFairy

end Squirrel

namespace Squirrel

/-! ## Poller lemmas -/

theorem tick_events_pos (e1 e2 : Nat) (r : PollResult) (h1 : e1 ≠ 0) (h2 : e2 ≠ 0) :
    tick e1 r = tick e2 r := by
  cases r with
  | raises => simp [tick, h1, h2]
  | returns st => simp [tick, h1, h2]

theorem tick_zero_nonterminal (r : PollResult) (h : isTerminal r = false) :
    tick 0 r = [Action.add (maskOf r)] := by
  cases r with
  | raises => simp [isTerminal] at h
  | returns st =>
      cases st with
      | pollOk => simp [isTerminal] at h
      | pollRead => decide
      | pollWrite => decide
      | pollError => simp [isTerminal] at h
      | other => simp [isTerminal] at h

theorem tick_pos_nonterminal (e : Nat) (r : PollResult) (he : e ≠ 0) (h : isTerminal r = false) :
    tick e r = [Action.update (maskOf r)] := by
  rw [tick_events_pos e 1 r he one_ne_zero]
  cases r with
  | raises => simp [isTerminal] at h
  | returns st =>
      cases st with
      | pollOk => simp [isTerminal] at h
      | pollRead => decide
      | pollWrite => decide
      | pollError => simp [isTerminal] at h
      | other => simp [isTerminal] at h

theorem tick_zero_terminal (r : PollResult) (h : isTerminal r = true) :
    tick 0 r = [Action.complete (completionOfResult r)] := by
  cases r with
  | raises => decide
  | returns st =>
      cases st with
      | pollOk => decide
      | pollRead => simp [isTerminal] at h
      | pollWrite => simp [isTerminal] at h
      | pollError => decide
      | other => decide

theorem tick_pos_terminal (e : Nat) (r : PollResult) (he : e ≠ 0) (h : isTerminal r = true) :
    tick e r = [Action.remove, Action.complete (completionOfResult r)] := by
  rw [tick_events_pos e 1 r he one_ne_zero]
  cases r with
  | raises => decide
  | returns st =>
      cases st with
      | pollOk => decide
      | pollRead => simp [isTerminal] at h
      | pollWrite => simp [isTerminal] at h
      | pollError => decide
      | other => decide

theorem completions_tick_terminal (e : Nat) (r : PollResult) (h : isTerminal r = true) :
    completions (tick e r) = [completionOfResult r] := by
  cases e with
  | zero => rw [tick_zero_terminal r h]; simp [completions]
  | succ n => rw [tick_pos_terminal (n + 1) r (Nat.succ_ne_zero n) h]; simp [completions]

theorem completions_tick_nonterminal (e : Nat) (r : PollResult) (h : isTerminal r = false) :
    completions (tick e r) = [] := by
  cases e with
  | zero => rw [tick_zero_nonterminal r h]; simp [completions]
  | succ n => rw [tick_pos_nonterminal (n + 1) r (Nat.succ_ne_zero n) h]; simp [completions]

theorem completions_append (l1 l2 : List Action) :
    completions (l1 ++ l2) = completions l1 ++ completions l2 :=
  List.filterMap_append l1 l2 _

theorem runPollerGo_completions (e : Nat) (rs : List PollResult) :
    completions (runPollerGo e rs).flatten =
      ((rs.find? isTerminal).map completionOfResult).toList := by
  induction rs generalizing e with
  | nil => simp [runPollerGo, completions]
  | cons r rs ih =>
      by_cases h : isTerminal r
      · rw [List.find?_cons_of_pos _ h]
        simp [runPollerGo, h, completions_tick_terminal e r h]
      · have h2 : isTerminal r = false := by simpa using h
        rw [List.find?_cons_of_neg _ h]
        rw [show runPollerGo e (r :: rs) = tick e r :: runPollerGo 1 rs by
          simp [runPollerGo, h2]]
        rw [List.flatten_cons, completions_append, completions_tick_nonterminal e r h2,
          List.nil_append]
        exact ih 1

theorem exists_find?_of_any (rs : List PollResult) (h : rs.any isTerminal = true) :
    ∃ r, rs.find? isTerminal = some r := by
  cases hf : rs.find? isTerminal with
  | some r => exact ⟨r, rfl⟩
  | none =>
      rw [List.find?_eq_none] at hf
      rw [List.any_eq_true] at h
      obtain ⟨x, hx, hpx⟩ := h
      exact absurd hpx (hf x hx)

/-- C2: for every poll cycle or dispatch that fails, exactly one completion is
delivered with the error, never zero and never more than one, and it travels
on the same result-or-error channel that success uses: over any sequence of
connection.poll outcomes, the poll lifecycle delivers at most one completion;
as soon as a terminal outcome occurs it delivers exactly one; the delivery is
determined by the first terminal outcome, a raising poll delivering the raised
exception, an error or unknown state delivering the OperationalError, and a
ready state delivering success, all through the one Completion channel. -/
theorem claim2 (rs : List PollResult) (r : PollResult) :
    (completions (pollerActions rs)).length ≤ 1 ∧
    (rs.any isTerminal = true → (completions (pollerActions rs)).length = 1) ∧
    (rs.find? isTerminal = some r →
      completions (pollerActions rs) = [completionOfResult r]) ∧
    (rs.find? isTerminal = some PollResult.raises →
      completions (pollerActions rs) = [Completion.failure PollError.raised]) ∧
    (rs.find? isTerminal = some (PollResult.returns PollState.pollError) →
      completions (pollerActions rs) = [Completion.failure PollError.unknownState]) ∧
    (rs.find? isTerminal = some (PollResult.returns PollState.pollOk) →
      completions (pollerActions rs) = [Completion.success]) := by
  have key := runPollerGo_completions 0 rs
  refine ⟨?_, ?_, ?_, ?_, ?_, ?_⟩
  · rw [pollerActions, ticksOf, key]
    cases rs.find? isTerminal <;> simp
  · intro h
    obtain ⟨t, ht⟩ := exists_find?_of_any rs h
    rw [pollerActions, ticksOf, key, ht]
    simp
  · intro h
    rw [pollerActions, ticksOf, key, h]
    simp
  · intro h
    rw [pollerActions, ticksOf, key, h]
    simp [completionOfResult]
  · intro h
    rw [pollerActions, ticksOf, key, h]
    simp [completionOfResult]
  · intro h
    rw [pollerActions, ticksOf, key, h]
    simp [completionOfResult]

/-- Witness for C2 at concrete inputs: a poll cycle that waits for read
readiness and then raises delivers exactly the raised error, and a cycle that
is immediately ready delivers exactly one completion. -/
theorem claim2_witness :
    completions (pollerActions [PollResult.returns PollState.pollRead, PollResult.raises])
        = [Completion.failure PollError.raised] ∧
    (completions (pollerActions [PollResult.returns PollState.pollOk])).length = 1 :=
  ⟨(claim2 [PollResult.returns PollState.pollRead, PollResult.raises]
      PollResult.raises).2.2.2.1 (by decide),
   (claim2 [PollResult.returns PollState.pollOk] PollResult.raises).2.1 (by decide)⟩

theorem runPollerGo_one_mem (rs : List PollResult) (acts : List Action)
    (h : acts ∈ runPollerGo 1 rs) :
    acts.countP isAddAction = 0 ∧
    ∀ c, Action.complete c ∈ acts → acts = [Action.remove, Action.complete c] := by
  induction rs with
  | nil => simp [runPollerGo] at h
  | cons r rs ih =>
      by_cases ht : isTerminal r
      · rw [show runPollerGo 1 (r :: rs) = [tick 1 r] by simp [runPollerGo, ht]] at h
        rw [List.mem_singleton] at h
        subst h
        rw [tick_pos_terminal 1 r one_ne_zero ht]
        refine ⟨by simp [List.countP_cons, isAddAction], ?_⟩
        intro c hc
        simp only [List.mem_cons, List.not_mem_nil, or_false] at hc
        rcases hc with hc | hc
        · exact absurd hc (by simp)
        · rw [show c = completionOfResult r by simpa using hc]
      · have h2 : isTerminal r = false := by simpa using ht
        rw [show runPollerGo 1 (r :: rs) = tick 1 r :: runPollerGo 1 rs by
          simp [runPollerGo, h2]] at h
        rw [List.mem_cons] at h
        rcases h with h | h
        · subst h
          rw [tick_pos_nonterminal 1 r one_ne_zero h2]
          refine ⟨by simp [List.countP_cons, isAddAction], ?_⟩
          intro c hc
          simp at hc
        · exact ih h

theorem runPollerGo_one_addCount (rs : List PollResult) :
    ((runPollerGo 1 rs).flatten).countP isAddAction = 0 := by
  induction rs with
  | nil => simp [runPollerGo]
  | cons r rs ih =>
      by_cases ht : isTerminal r
      · simp [runPollerGo, ht, tick_pos_terminal 1 r one_ne_zero ht,
          List.countP_cons, isAddAction]
      · have h2 : isTerminal r = false := by simpa using ht
        simp [runPollerGo, h2, tick_pos_nonterminal 1 r one_ne_zero h2,
          List.countP_cons, List.countP_append, isAddAction, ih]

/-- C9: across one poll lifecycle for a connection that still needs read or
write I/O, the reactor handler is registered by the first invocation and only
updated by later invocations, the descriptor is never registered twice (the
whole trace holds at most one add), and on reaching the done or error state a
registered handler is removed immediately before the completion is delivered,
while a lifecycle that ends on its very first invocation, having never
registered, delivers its completion with no removal. -/
theorem claim9 (rs : List PollResult) (r : PollResult) (i : Nat) (acts : List Action)
    (c : Completion) :
    (pollerActions rs).countP isAddAction ≤ 1 ∧
    (isTerminal r = false → (ticksOf (r :: rs)).head? = some [Action.add (maskOf r)]) ∧
    (1 ≤ i → (ticksOf rs).get? i = some acts → acts.countP isAddAction = 0) ∧
    (1 ≤ i → (ticksOf rs).get? i = some acts → Action.complete c ∈ acts →
      acts = [Action.remove, Action.complete c]) ∧
    ((ticksOf rs).get? 0 = some acts → Action.complete c ∈ acts →
      acts = [Action.complete c]) := by
  refine ⟨?_, ?_, ?_, ?_, ?_⟩
  · cases rs with
    | nil => simp [pollerActions, ticksOf, runPollerGo]
    | cons r1 rs1 =>
        by_cases ht : isTerminal r1
        · simp [pollerActions, ticksOf, runPollerGo, ht, tick_zero_terminal r1 ht,
            List.countP_cons, isAddAction]
        · have h2 : isTerminal r1 = false := by simpa using ht
          simp [pollerActions, ticksOf, runPollerGo, h2, tick_zero_nonterminal r1 h2,
            List.countP_cons, List.countP_append, isAddAction,
            runPollerGo_one_addCount rs1]
  · intro h
    simp [ticksOf, runPollerGo, h, tick_zero_nonterminal r h]
  · intro hi hg
    cases i with
    | zero => omega
    | succ j =>
        cases rs with
        | nil => simp [ticksOf, runPollerGo] at hg
        | cons r1 rs1 =>
            by_cases ht : isTerminal r1
            · simp [ticksOf, runPollerGo, ht] at hg
            · have h2 : isTerminal r1 = false := by simpa using ht
              rw [show ticksOf (r1 :: rs1) = tick 0 r1 :: runPollerGo 1 rs1 by
                simp [ticksOf, runPollerGo, h2]] at hg
              rw [List.get?_cons_succ] at hg
              exact (runPollerGo_one_mem rs1 acts (List.get?_mem hg)).1
  · intro hi hg hc
    cases i with
    | zero => omega
    | succ j =>
        cases rs with
        | nil => simp [ticksOf, runPollerGo] at hg
        | cons r1 rs1 =>
            by_cases ht : isTerminal r1
            · simp [ticksOf, runPollerGo, ht] at hg
            · have h2 : isTerminal r1 = false := by simpa using ht
              rw [show ticksOf (r1 :: rs1) = tick 0 r1 :: runPollerGo 1 rs1 by
                simp [ticksOf, runPollerGo, h2]] at hg
              rw [List.get?_cons_succ] at hg
              exact (runPollerGo_one_mem rs1 acts (List.get?_mem hg)).2 c hc
  · intro hg hc
    cases rs with
    | nil => simp [ticksOf, runPollerGo] at hg
    | cons r1 rs1 =>
        by_cases ht : isTerminal r1
        · rw [show ticksOf (r1 :: rs1) = [tick 0 r1] by simp [ticksOf, runPollerGo, ht]] at hg
          rw [List.get?_cons_zero, Option.some.injEq] at hg
          subst hg
          rw [tick_zero_terminal r1 ht] at hc ⊢
          rw [show c = completionOfResult r1 by simpa using hc]
        · have h2 : isTerminal r1 = false := by simpa using ht
          rw [show ticksOf (r1 :: rs1) = tick 0 r1 :: runPollerGo 1 rs1 by
            simp [ticksOf, runPollerGo, h2]] at hg
          rw [List.get?_cons_zero, Option.some.injEq] at hg
          subst hg
          rw [tick_zero_nonterminal r1 h2] at hc
          simp at hc

/-- Witness for C9 at a concrete lifecycle needing read then write then done:
the trace holds at most one registration, the first invocation registers read
plus error interest, the second invocation holds no registration, and the
final invocation removes the handler immediately before delivering success. -/
theorem claim9_witness :
    (pollerActions [PollResult.returns PollState.pollRead,
        PollResult.returns PollState.pollWrite,
        PollResult.returns PollState.pollOk]).countP isAddAction ≤ 1 ∧
    (ticksOf [PollResult.returns PollState.pollRead,
        PollResult.returns PollState.pollWrite,
        PollResult.returns PollState.pollOk]).head? = some [Action.add 25] ∧
    ([Action.update 28] : List Action).countP isAddAction = 0 ∧
    ([Action.remove, Action.complete Completion.success] : List Action)
        = [Action.remove, Action.complete Completion.success] ∧
    ([Action.complete Completion.success] : List Action)
        = [Action.complete Completion.success] := by
  refine ⟨(claim9 [PollResult.returns PollState.pollRead,
      PollResult.returns PollState.pollWrite,
      PollResult.returns PollState.pollOk] PollResult.raises 0 [] Completion.success).1,
    ?_, ?_, ?_, ?_⟩
  · have h := (claim9 [PollResult.returns PollState.pollWrite,
        PollResult.returns PollState.pollOk] (PollResult.returns PollState.pollRead) 0 []
        Completion.success).2.1 (by decide)
    simpa using h
  · exact (claim9 [PollResult.returns PollState.pollRead,
      PollResult.returns PollState.pollWrite,
      PollResult.returns PollState.pollOk] PollResult.raises 1 [Action.update 28]
      Completion.success).2.2.1 (by decide) (by decide)
  · exact (claim9 [PollResult.returns PollState.pollRead,
      PollResult.returns PollState.pollOk] PollResult.raises 1
      [Action.remove, Action.complete Completion.success]
      Completion.success).2.2.2.1 (by decide) (by decide) (by decide)
  · exact (claim9 [PollResult.returns PollState.pollOk] PollResult.raises 0
      [Action.complete Completion.success]
      Completion.success).2.2.2.2 (by decide) (by decide)

end Squirrel


namespace Squirrel

/-! ## ConnectionPool lemmas -/

open ConnectionPool

theorem pollOk_pos (s : PoolState) (c : Nat) (hm : c ∈ s.establishing) :
    ConnectionPool.pollOk s c =
      { s with establishing := s.establishing.erase c, leased := s.leased ++ [c] } := by
  have hc : s.establishing.contains c = true := by simpa using hm
  unfold ConnectionPool.pollOk
  rw [hc]
  exact if_pos rfl

theorem pollOk_neg (s : PoolState) (c : Nat) (hm : c ∉ s.establishing) :
    ConnectionPool.pollOk s c = s := by
  have hc : s.establishing.contains c = false := by simpa using hm
  unfold ConnectionPool.pollOk
  rw [hc]
  exact if_neg (by simp)

theorem pollFail_pos (s : PoolState) (c : Nat) (hm : c ∈ s.establishing) :
    ConnectionPool.pollFail s c =
      checkin { s with establishing := s.establishing.erase c } c true := by
  have hc : s.establishing.contains c = true := by simpa using hm
  unfold ConnectionPool.pollFail
  rw [hc]
  exact if_pos rfl

theorem pollFail_neg (s : PoolState) (c : Nat) (hm : c ∉ s.establishing) :
    ConnectionPool.pollFail s c = s := by
  have hc : s.establishing.contains c = false := by simpa using hm
  unfold ConnectionPool.pollFail
  rw [hc]
  exact if_neg (by simp)

theorem onFairyDeref_pos (s : PoolState) (c : Nat) (hm : c ∈ s.leased) :
    ConnectionPool.onFairyDeref s c =
      { checkin { s with leased := s.leased.erase c } c false with
          scanScheduled :=
            (checkin { s with leased := s.leased.erase c } c false).scanScheduled + 1 } := by
  have hc : s.leased.contains c = true := by simpa using hm
  unfold ConnectionPool.onFairyDeref
  rw [hc]
  exact if_pos rfl

theorem onFairyDeref_neg (s : PoolState) (c : Nat) (hm : c ∉ s.leased) :
    ConnectionPool.onFairyDeref s c = s := by
  have hc : s.leased.contains c = false := by simpa using hm
  unfold ConnectionPool.onFairyDeref
  rw [hc]
  exact if_neg (by simp)

theorem runScheduledScan_pos (s : PoolState) (hs : s.scanScheduled ≠ 0) :
    ConnectionPool.runScheduledScan s =
      processQueue { s with scanScheduled := s.scanScheduled - 1 } := by
  unfold ConnectionPool.runScheduledScan
  exact if_pos hs

theorem runScheduledScan_neg (s : PoolState) (hs : ¬s.scanScheduled ≠ 0) :
    ConnectionPool.runScheduledScan s = s := by
  unfold ConnectionPool.runScheduledScan
  exact if_neg hs

theorem dispatch_fields (s : PoolState) (r : Nat) :
    (dispatch s r).maxConnections = s.maxConnections ∧
    (dispatch s r).queue = s.queue ∧
    (dispatch s r).owed = s.owed ∧
    (dispatch s r).leased = s.leased ∧
    (dispatch s r).closed = s.closed ∧
    (dispatch s r).closedConns = s.closedConns ∧
    (dispatch s r).scanScheduled = s.scanScheduled ∧
    (dispatch s r).nextReq = s.nextReq ∧
    (dispatch s r).establishing.length = s.establishing.length + 1 ∧
    (dispatch s r).admitted = s.admitted ++ [r] := by
  cases h : s.idle <;> simp [dispatch, h]

theorem dispatch_idle_mem (s : PoolState) (r : Nat) (c : Nat)
    (h : c ∈ (dispatch s r).idle) : c ∈ s.idle := by
  cases hi : s.idle with
  | nil => simp [dispatch, hi] at h
  | cons a l =>
      simp [dispatch, hi] at h
      exact List.mem_cons_of_mem a h

theorem processQueueGo_fields (fuel : Nat) (s : PoolState) :
    (processQueueGo fuel s).maxConnections = s.maxConnections ∧
    (processQueueGo fuel s).leased = s.leased ∧
    (processQueueGo fuel s).closed = s.closed ∧
    (processQueueGo fuel s).closedConns = s.closedConns ∧
    (processQueueGo fuel s).scanScheduled = s.scanScheduled ∧
    (processQueueGo fuel s).nextReq = s.nextReq := by
  induction fuel generalizing s with
  | zero => simp [processQueueGo]
  | succ fuel ih =>
      cases hq : s.queue with
      | nil => simp [processQueueGo, hq]
      | cons r rest =>
          by_cases h : s.owed < (s.maxConnections : Int)
          · rw [show processQueueGo (fuel + 1) s =
                processQueueGo fuel (dispatch { s with owed := s.owed + 1, queue := rest } r) by
              simp [processQueueGo, hq, h]]
            obtain ⟨a1, a2, a3, a4, a5, a6⟩ :=
              ih (dispatch { s with owed := s.owed + 1, queue := rest } r)
            obtain ⟨b1, b2, b3, b4, b5, b6, b7, b8, b9, b10⟩ :=
              dispatch_fields { s with owed := s.owed + 1, queue := rest } r
            exact ⟨a1.trans b1, a2.trans b4, a3.trans b5, a4.trans b6, a5.trans b7, a6.trans b8⟩
          · simp [processQueueGo, hq, h]

theorem processQueueGo_inv1 (fuel : Nat) (s : PoolState)
    (h1 : s.owed = s.establishing.length + s.leased.length)
    (h2 : s.owed ≤ (s.maxConnections : Int)) :
    (processQueueGo fuel s).owed =
      (processQueueGo fuel s).establishing.length + (processQueueGo fuel s).leased.length ∧
    (processQueueGo fuel s).owed ≤ ((processQueueGo fuel s).maxConnections : Int) := by
  induction fuel generalizing s with
  | zero => exact ⟨h1, h2⟩
  | succ fuel ih =>
      cases hq : s.queue with
      | nil =>
          rw [show processQueueGo (fuel + 1) s = s by simp [processQueueGo, hq]]
          exact ⟨h1, h2⟩
      | cons r rest =>
          by_cases h : s.owed < (s.maxConnections : Int)
          · rw [show processQueueGo (fuel + 1) s =
                processQueueGo fuel (dispatch { s with owed := s.owed + 1, queue := rest } r) by
              simp [processQueueGo, hq, h]]
            obtain ⟨b1, b2, b3, b4, b5, b6, b7, b8, b9, b10⟩ :=
              dispatch_fields { s with owed := s.owed + 1, queue := rest } r
            have e1 : (dispatch { s with owed := s.owed + 1, queue := rest } r).maxConnections
                = s.maxConnections := b1
            have e3 : (dispatch { s with owed := s.owed + 1, queue := rest } r).owed
                = s.owed + 1 := b3
            have e4 : (dispatch { s with owed := s.owed + 1, queue := rest } r).leased
                = s.leased := b4
            have e9 : (dispatch { s with owed := s.owed + 1, queue := rest } r).establishing.length
                = s.establishing.length + 1 := b9
            apply ih
            · rw [e3, e4, e9]
              push_cast
              omega
            · rw [e3, e1]
              omega
          · rw [show processQueueGo (fuel + 1) s = s by simp [processQueueGo, hq, h]]
            exact ⟨h1, h2⟩

theorem processQueueGo_adm (fuel : Nat) (s : PoolState)
    (h : s.admitted ++ s.queue = List.range s.nextReq) :
    (processQueueGo fuel s).admitted ++ (processQueueGo fuel s).queue =
      List.range (processQueueGo fuel s).nextReq := by
  induction fuel generalizing s with
  | zero => exact h
  | succ fuel ih =>
      cases hq : s.queue with
      | nil =>
          rw [show processQueueGo (fuel + 1) s = s by simp [processQueueGo, hq]]
          exact h
      | cons r rest =>
          by_cases hlt : s.owed < (s.maxConnections : Int)
          · rw [show processQueueGo (fuel + 1) s =
                processQueueGo fuel (dispatch { s with owed := s.owed + 1, queue := rest } r) by
              simp [processQueueGo, hq, hlt]]
            obtain ⟨b1, b2, b3, b4, b5, b6, b7, b8, b9, b10⟩ :=
              dispatch_fields { s with owed := s.owed + 1, queue := rest } r
            have e2 : (dispatch { s with owed := s.owed + 1, queue := rest } r).queue
                = rest := b2
            have e8 : (dispatch { s with owed := s.owed + 1, queue := rest } r).nextReq
                = s.nextReq := b8
            have e10 : (dispatch { s with owed := s.owed + 1, queue := rest } r).admitted
                = s.admitted ++ [r] := b10
            apply ih
            rw [e2, e8, e10, List.append_assoc, List.singleton_append, ← hq]
            exact h
          · rw [show processQueueGo (fuel + 1) s = s by simp [processQueueGo, hq, hlt]]
            exact h

theorem processQueueGo_idle_mem (fuel : Nat) (s : PoolState) (c : Nat)
    (h : c ∈ (processQueueGo fuel s).idle) : c ∈ s.idle := by
  induction fuel generalizing s with
  | zero => exact h
  | succ fuel ih =>
      cases hq : s.queue with
      | nil =>
          rw [show processQueueGo (fuel + 1) s = s by simp [processQueueGo, hq]] at h
          exact h
      | cons r rest =>
          by_cases hlt : s.owed < (s.maxConnections : Int)
          · rw [show processQueueGo (fuel + 1) s =
                processQueueGo fuel (dispatch { s with owed := s.owed + 1, queue := rest } r) by
              simp [processQueueGo, hq, hlt]] at h
            exact dispatch_idle_mem { s with owed := s.owed + 1, queue := rest } r c
              (ih (dispatch { s with owed := s.owed + 1, queue := rest } r) h)
          · rw [show processQueueGo (fuel + 1) s = s by simp [processQueueGo, hq, hlt]] at h
            exact h

theorem processQueueGo_admitted_ext (fuel : Nat) (s : PoolState) :
    ∃ t, (processQueueGo fuel s).admitted = s.admitted ++ t := by
  induction fuel generalizing s with
  | zero => exact ⟨[], by simp [processQueueGo]⟩
  | succ fuel ih =>
      cases hq : s.queue with
      | nil => exact ⟨[], by simp [processQueueGo, hq]⟩
      | cons r rest =>
          by_cases hlt : s.owed < (s.maxConnections : Int)
          · obtain ⟨t, htl⟩ := ih (dispatch { s with owed := s.owed + 1, queue := rest } r)
            have e10 : (dispatch { s with owed := s.owed + 1, queue := rest } r).admitted
                = s.admitted ++ [r] :=
              (dispatch_fields { s with owed := s.owed + 1, queue := rest } r).2.2.2.2.2.2.2.2.2
            refine ⟨r :: t, ?_⟩
            rw [show processQueueGo (fuel + 1) s =
                processQueueGo fuel (dispatch { s with owed := s.owed + 1, queue := rest } r) by
              simp [processQueueGo, hq, hlt]]
            rw [htl, e10]
            simp
          · exact ⟨[], by simp [processQueueGo, hq, hlt]⟩

theorem checkin_fields (s : PoolState) (c : Nat) (err : Bool) :
    (checkin s c err).owed = s.owed - 1 ∧
    (checkin s c err).establishing = s.establishing ∧
    (checkin s c err).leased = s.leased ∧
    (checkin s c err).maxConnections = s.maxConnections ∧
    (checkin s c err).queue = s.queue ∧
    (checkin s c err).admitted = s.admitted ∧
    (checkin s c err).closed = s.closed ∧
    (checkin s c err).scanScheduled = s.scanScheduled ∧
    (checkin s c err).nextReq = s.nextReq ∧
    (checkin s c err).nextConn = s.nextConn := by
  simp only [checkin]
  split_ifs <;> simp

theorem onFairyDeref_fields (s : PoolState) (c : Nat) (hm : c ∈ s.leased) :
    (onFairyDeref s c).owed = s.owed - 1 ∧
    (onFairyDeref s c).establishing = s.establishing ∧
    (onFairyDeref s c).leased = s.leased.erase c ∧
    (onFairyDeref s c).maxConnections = s.maxConnections ∧
    (onFairyDeref s c).queue = s.queue ∧
    (onFairyDeref s c).admitted = s.admitted ∧
    (onFairyDeref s c).scanScheduled = s.scanScheduled + 1 ∧
    (onFairyDeref s c).nextReq = s.nextReq ∧
    (onFairyDeref s c).closed = s.closed := by
  rw [onFairyDeref_pos s c hm]
  obtain ⟨b1, b2, b3, b4, b5, b6, b7, b8, b9, b10⟩ :=
    checkin_fields { s with leased := s.leased.erase c } c false
  have e1 : (checkin { s with leased := s.leased.erase c } c false).owed = s.owed - 1 := b1
  have e2 : (checkin { s with leased := s.leased.erase c } c false).establishing
      = s.establishing := b2
  have e3 : (checkin { s with leased := s.leased.erase c } c false).leased
      = s.leased.erase c := b3
  have e4 : (checkin { s with leased := s.leased.erase c } c false).maxConnections
      = s.maxConnections := b4
  have e5 : (checkin { s with leased := s.leased.erase c } c false).queue = s.queue := b5
  have e6 : (checkin { s with leased := s.leased.erase c } c false).admitted = s.admitted := b6
  have e7 : (checkin { s with leased := s.leased.erase c } c false).closed = s.closed := b7
  have e8 : (checkin { s with leased := s.leased.erase c } c false).scanScheduled
      = s.scanScheduled := b8
  have e9 : (checkin { s with leased := s.leased.erase c } c false).nextReq = s.nextReq := b9
  refine ⟨e1, e2, e3, e4, e5, e6, ?_, e9, e7⟩
  show (checkin { s with leased := s.leased.erase c } c false).scanScheduled + 1
      = s.scanScheduled + 1
  rw [e8]

theorem step_inv1 (s : PoolState) (e : Event)
    (h1 : s.owed = s.establishing.length + s.leased.length)
    (h2 : s.owed ≤ (s.maxConnections : Int)) :
    (step s e).owed = (step s e).establishing.length + (step s e).leased.length ∧
    (step s e).owed ≤ ((step s e).maxConnections : Int) := by
  cases e with
  | cursor => exact processQueueGo_inv1 _ _ h1 h2
  | pollOk c =>
      by_cases hm : c ∈ s.establishing
      · rw [show step s (Event.pollOk c) = ConnectionPool.pollOk s c from rfl, pollOk_pos s c hm]
        have hlen := List.length_erase_of_mem hm
        have hpos := List.length_pos_of_mem hm
        constructor
        · show s.owed =
            ((s.establishing.erase c).length : Int) + ((s.leased ++ [c]).length : Int)
          rw [List.length_append, List.length_singleton]
          omega
        · exact h2
      · rw [show step s (Event.pollOk c) = ConnectionPool.pollOk s c from rfl, pollOk_neg s c hm]
        exact ⟨h1, h2⟩
  | pollFail c =>
      by_cases hm : c ∈ s.establishing
      · rw [show step s (Event.pollFail c) = ConnectionPool.pollFail s c from rfl,
          pollFail_pos s c hm]
        have hlen := List.length_erase_of_mem hm
        have hpos := List.length_pos_of_mem hm
        obtain ⟨b1, b2, b3, b4, b5, b6, b7, b8, b9, b10⟩ :=
          checkin_fields { s with establishing := s.establishing.erase c } c true
        have e1 : (checkin { s with establishing := s.establishing.erase c } c true).owed
            = s.owed - 1 := b1
        have e2 : (checkin { s with establishing := s.establishing.erase c } c true).establishing
            = s.establishing.erase c := b2
        have e3 : (checkin { s with establishing := s.establishing.erase c } c true).leased
            = s.leased := b3
        have e4 : (checkin { s with establishing := s.establishing.erase c } c true).maxConnections
            = s.maxConnections := b4
        constructor
        · rw [e1, e2, e3]
          omega
        · rw [e1, e4]
          omega
      · rw [show step s (Event.pollFail c) = ConnectionPool.pollFail s c from rfl,
          pollFail_neg s c hm]
        exact ⟨h1, h2⟩
  | deref c =>
      by_cases hm : c ∈ s.leased
      · obtain ⟨b1, b2, b3, b4, b5, b6, b7, b8, b9⟩ := onFairyDeref_fields s c hm
        have hlen := List.length_erase_of_mem hm
        have hpos := List.length_pos_of_mem hm
        rw [show step s (Event.deref c) = ConnectionPool.onFairyDeref s c from rfl]
        constructor
        · rw [b1, b2, b3]
          omega
        · rw [b1, b4]
          omega
      · rw [show step s (Event.deref c) = ConnectionPool.onFairyDeref s c from rfl,
          onFairyDeref_neg s c hm]
        exact ⟨h1, h2⟩
  | close => exact ⟨h1, h2⟩
  | procQueue =>
      by_cases hs : s.scanScheduled ≠ 0
      · rw [show step s Event.procQueue = ConnectionPool.runScheduledScan s from rfl,
          runScheduledScan_pos s hs]
        exact processQueueGo_inv1 _ _ h1 h2
      · rw [show step s Event.procQueue = ConnectionPool.runScheduledScan s from rfl,
          runScheduledScan_neg s hs]
        exact ⟨h1, h2⟩

theorem run_inv1 (s : PoolState) (evs : List Event)
    (h1 : s.owed = s.establishing.length + s.leased.length)
    (h2 : s.owed ≤ (s.maxConnections : Int)) :
    (run s evs).owed = (run s evs).establishing.length + (run s evs).leased.length ∧
    (run s evs).owed ≤ ((run s evs).maxConnections : Int) := by
  induction evs generalizing s with
  | nil => exact ⟨h1, h2⟩
  | cons e evs ih =>
      have h := step_inv1 s e h1 h2
      exact ih (step s e) h.1 h.2

theorem step_max (s : PoolState) (e : Event) :
    (step s e).maxConnections = s.maxConnections := by
  cases e with
  | cursor => exact (processQueueGo_fields _ _).1
  | pollOk c =>
      by_cases hm : c ∈ s.establishing
      · rw [show step s (Event.pollOk c) = ConnectionPool.pollOk s c from rfl, pollOk_pos s c hm]
      · rw [show step s (Event.pollOk c) = ConnectionPool.pollOk s c from rfl, pollOk_neg s c hm]
  | pollFail c =>
      by_cases hm : c ∈ s.establishing
      · rw [show step s (Event.pollFail c) = ConnectionPool.pollFail s c from rfl,
          pollFail_pos s c hm]
        exact (checkin_fields { s with establishing := s.establishing.erase c } c true).2.2.2.1
      · rw [show step s (Event.pollFail c) = ConnectionPool.pollFail s c from rfl,
          pollFail_neg s c hm]
  | deref c =>
      by_cases hm : c ∈ s.leased
      · exact (onFairyDeref_fields s c hm).2.2.2.1
      · rw [show step s (Event.deref c) = ConnectionPool.onFairyDeref s c from rfl,
          onFairyDeref_neg s c hm]
  | close => rfl
  | procQueue =>
      by_cases hs : s.scanScheduled ≠ 0
      · rw [show step s Event.procQueue = ConnectionPool.runScheduledScan s from rfl,
          runScheduledScan_pos s hs]
        exact (processQueueGo_fields _ _).1
      · rw [show step s Event.procQueue = ConnectionPool.runScheduledScan s from rfl,
          runScheduledScan_neg s hs]

theorem run_max (s : PoolState) (evs : List Event) :
    (run s evs).maxConnections = s.maxConnections := by
  induction evs generalizing s with
  | nil => rfl
  | cons e evs ih => exact (ih (step s e)).trans (step_max s e)

/-- C1: over every sequence of acquire, poll completion, checkin and shutdown
events starting from a fresh pool, the counter owed always equals the number
of connections currently leased or being established, and it never exceeds
max_connections. -/
theorem claim1 (m : Nat) (evs : List Event) :
    (run (mkPool m) evs).owed =
      (run (mkPool m) evs).establishing.length + (run (mkPool m) evs).leased.length ∧
    (run (mkPool m) evs).owed ≤ (m : Int) := by
  have h := run_inv1 (mkPool m) evs (by simp [mkPool]) (by simp [mkPool])
  refine ⟨h.1, ?_⟩
  have h2 := h.2
  rw [run_max (mkPool m) evs] at h2
  exact h2

end Squirrel

namespace Squirrel

/-! ## Admission order: FIFO invariant and the N-cursor scenario -/

open ConnectionPool

theorem processQueueGo_stuck (fuel : Nat) (s : PoolState)
    (h : ¬s.owed < (s.maxConnections : Int)) :
    processQueueGo fuel s = s := by
  cases fuel with
  | zero => rfl
  | succ fuel =>
      cases hq : s.queue with
      | nil => simp [processQueueGo, hq]
      | cons r rest => simp [processQueueGo, hq, h]

theorem cursor_saturated (s : PoolState) (ho : ¬s.owed < (s.maxConnections : Int)) :
    ConnectionPool.cursor s =
      { s with queue := s.queue ++ [s.nextReq], nextReq := s.nextReq + 1 } := by
  unfold ConnectionPool.cursor ConnectionPool.processQueue
  exact processQueueGo_stuck _ _ ho

theorem run_replicate_cursor (m N : Nat) :
    run (mkPool m) (List.replicate N Event.cursor) = cursorOnlyState m N := by
  induction N with
  | zero => simp [run, mkPool, cursorOnlyState]
  | succ N ih =>
      rw [List.replicate_succ', run, List.foldl_append]
      rw [show List.foldl step (mkPool m) (List.replicate N Event.cursor)
          = run (mkPool m) (List.replicate N Event.cursor) from rfl, ih]
      show ConnectionPool.cursor (cursorOnlyState m N) = cursorOnlyState m (N + 1)
      by_cases hm : m ≤ N
      · have hmin : min N m = m := Nat.min_eq_right hm
        have hmin2 : min (N + 1) m = m := Nat.min_eq_right (le_trans hm (Nat.le_succ N))
        rw [cursor_saturated _ (by simp [cursorOnlyState, hmin])]
        have hq2 : (List.range N).drop m ++ [N] = (List.range (N + 1)).drop m := by
          rw [List.range_succ, List.drop_append_of_le_length (by simpa using hm)]
        simp [cursorOnlyState, hmin, hmin2, hq2]
      · have hm2 : N < m := by omega
        have hmin : min N m = N := Nat.min_eq_left (by omega)
        have hmin2 : min (N + 1) m = N + 1 := Nat.min_eq_left (by omega)
        have hq0 : (List.range N).drop m = [] :=
          List.drop_eq_nil_of_le (by simpa using Nat.le_of_lt hm2)
        have hq1 : (List.range (N + 1)).drop m = [] :=
          List.drop_eq_nil_of_le (by simpa using hm2)
        have hCF : cursorOnlyState m N =
            { maxConnections := m, idle := [], queue := [], owed := (N : Int), closed := false,
              establishing := List.range N, leased := [], closedConns := [], nextConn := N,
              nextReq := N, admitted := List.range N, scanScheduled := 0 } := by
          simp [cursorOnlyState, hq0, hmin]
        have hcond : ((N : Int) < (m : Int)) := by exact_mod_cast hm2
        rw [hCF]
        simp [ConnectionPool.cursor, ConnectionPool.processQueue, processQueueGo,
          ConnectionPool.dispatch, cursorOnlyState, hcond, hmin2, hq1, List.range_succ]
        omega

theorem step_adm (s : PoolState) (e : Event)
    (h : s.admitted ++ s.queue = List.range s.nextReq) :
    (step s e).admitted ++ (step s e).queue = List.range (step s e).nextReq := by
  cases e with
  | cursor =>
      apply processQueueGo_adm
      show s.admitted ++ (s.queue ++ [s.nextReq]) = List.range (s.nextReq + 1)
      rw [← List.append_assoc, h, List.range_succ]
  | pollOk c =>
      by_cases hm : c ∈ s.establishing
      · rw [show step s (Event.pollOk c) = ConnectionPool.pollOk s c from rfl, pollOk_pos s c hm]
        exact h
      · rw [show step s (Event.pollOk c) = ConnectionPool.pollOk s c from rfl, pollOk_neg s c hm]
        exact h
  | pollFail c =>
      by_cases hm : c ∈ s.establishing
      · rw [show step s (Event.pollFail c) = ConnectionPool.pollFail s c from rfl,
          pollFail_pos s c hm]
        obtain ⟨b1, b2, b3, b4, b5, b6, b7, b8, b9, b10⟩ :=
          checkin_fields { s with establishing := s.establishing.erase c } c true
        have e5 : (checkin { s with establishing := s.establishing.erase c } c true).queue
            = s.queue := b5
        have e6 : (checkin { s with establishing := s.establishing.erase c } c true).admitted
            = s.admitted := b6
        have e9 : (checkin { s with establishing := s.establishing.erase c } c true).nextReq
            = s.nextReq := b9
        rw [e5, e6, e9]
        exact h
      · rw [show step s (Event.pollFail c) = ConnectionPool.pollFail s c from rfl,
          pollFail_neg s c hm]
        exact h
  | deref c =>
      by_cases hm : c ∈ s.leased
      · obtain ⟨b1, b2, b3, b4, b5, b6, b7, b8, b9⟩ := onFairyDeref_fields s c hm
        rw [show step s (Event.deref c) = ConnectionPool.onFairyDeref s c from rfl, b5, b6, b8]
        exact h
      · rw [show step s (Event.deref c) = ConnectionPool.onFairyDeref s c from rfl,
          onFairyDeref_neg s c hm]
        exact h
  | close => exact h
  | procQueue =>
      by_cases hs : s.scanScheduled ≠ 0
      · rw [show step s Event.procQueue = ConnectionPool.runScheduledScan s from rfl,
          runScheduledScan_pos s hs]
        exact processQueueGo_adm _ _ h
      · rw [show step s Event.procQueue = ConnectionPool.runScheduledScan s from rfl,
          runScheduledScan_neg s hs]
        exact h

theorem run_adm (s : PoolState) (evs : List Event)
    (h : s.admitted ++ s.queue = List.range s.nextReq) :
    (run s evs).admitted ++ (run s evs).queue = List.range (run s evs).nextReq := by
  induction evs generalizing s with
  | nil => exact h
  | cons e evs ih => exact ih (step s e) (step_adm s e h)

/-- C3: queued requests are admitted strictly in FIFO submission order and
only while owed is below max_connections: over every event sequence the
requests admitted so far followed by the still-queued requests are exactly
the submitted requests in submission order; and for N simultaneous
acquisitions from a fresh pool the first min N max_connections are dispatched
immediately while the rest remain queued in submission order, with owed at
min N max_connections. -/
theorem claim3 (m N : Nat) (evs : List Event) :
    (run (mkPool m) evs).admitted ++ (run (mkPool m) evs).queue =
      List.range (run (mkPool m) evs).nextReq ∧
    (run (mkPool m) (List.replicate N Event.cursor)).admitted = List.range (min N m) ∧
    (run (mkPool m) (List.replicate N Event.cursor)).queue = (List.range N).drop m ∧
    (run (mkPool m) (List.replicate N Event.cursor)).owed = ((min N m : Nat) : Int) := by
  refine ⟨run_adm (mkPool m) evs (by simp [mkPool]), ?_, ?_, ?_⟩
  · rw [run_replicate_cursor]
    rfl
  · rw [run_replicate_cursor]
    rfl
  · rw [run_replicate_cursor]
    rfl

end Squirrel

namespace Squirrel

/-! ## Checkin branch behaviour and the failure path -/

open ConnectionPool

theorem checkin_true_spec (s : PoolState) (c : Nat) :
    checkin s c true =
      { s with owed := s.owed - 1, closedConns := s.closedConns ++ [c] } := by
  simp [checkin]

theorem checkin_false_open (s : PoolState) (c : Nat) (h1 : s.closed = false)
    (h2 : s.closedConns.contains c = false) :
    checkin s c false = { s with owed := s.owed - 1, idle := s.idle ++ [c] } := by
  have h2m : c ∉ s.closedConns := by simpa using h2
  simp [checkin, h1, h2m]

theorem checkin_false_poolClosed (s : PoolState) (c : Nat) (h1 : s.closed = true) :
    checkin s c false =
      { s with owed := s.owed - 1, closedConns := s.closedConns ++ [c] } := by
  simp [checkin, h1]

theorem checkin_false_connClosed (s : PoolState) (c : Nat) (h1 : s.closed = false)
    (h2 : s.closedConns.contains c = true) :
    checkin s c false = { s with owed := s.owed - 1 } := by
  have h2m : c ∈ s.closedConns := by simpa using h2
  simp [checkin, h1, h2m]

theorem processQueue_admits_head (s : PoolState) (r : Nat) (rest : List Nat)
    (hq : s.queue = r :: rest) (ho : s.owed < (s.maxConnections : Int)) :
    ∃ t, (processQueue s).admitted = s.admitted ++ r :: t := by
  have hl : s.queue.length = rest.length + 1 := by rw [hq]; rfl
  unfold ConnectionPool.processQueue
  rw [hl]
  rw [show processQueueGo (rest.length + 1) s =
      processQueueGo rest.length (dispatch { s with owed := s.owed + 1, queue := rest } r) by
    simp [processQueueGo, hq, ho]]
  obtain ⟨t2, ht2⟩ := processQueueGo_admitted_ext rest.length
    (dispatch { s with owed := s.owed + 1, queue := rest } r)
  have e10 : (dispatch { s with owed := s.owed + 1, queue := rest } r).admitted
      = s.admitted ++ [r] :=
    (dispatch_fields { s with owed := s.owed + 1, queue := rest } r).2.2.2.2.2.2.2.2.2
  refine ⟨t2, ?_⟩
  rw [ht2, e10]
  simp

theorem cursor_admits_fresh (s : PoolState) (hq : s.queue = []) (hi : s.idle = [])
    (ho : s.owed < (s.maxConnections : Int)) :
    ConnectionPool.cursor s =
      { s with owed := s.owed + 1, nextReq := s.nextReq + 1, nextConn := s.nextConn + 1,
               establishing := s.establishing ++ [s.nextConn],
               admitted := s.admitted ++ [s.nextReq] } := by
  unfold ConnectionPool.cursor ConnectionPool.processQueue
  simp [hq, processQueueGo, ho, ConnectionPool.dispatch, hi]

/-- C4 counterexample: from a fresh pool with max_connections equal to 1,
admit request 0 (opening connection 0), queue request 1, then let the
dispatch poll for connection 0 fail.  The checkin performed on the failure
path decrements owed back to 0, below max_connections, yet request 1 stays
queued, is never admitted, and no admission scan is scheduled: the checkin
triggered by a dispatch failure does not re-run the admission scan. -/
theorem claim4_counterexample :
    (run (mkPool 1) [Event.cursor, Event.cursor, Event.pollFail 0]).owed = 0 ∧
    (run (mkPool 1) [Event.cursor, Event.cursor, Event.pollFail 0]).queue = [1] ∧
    (run (mkPool 1) [Event.cursor, Event.cursor, Event.pollFail 0]).admitted = [0] ∧
    (run (mkPool 1) [Event.cursor, Event.cursor, Event.pollFail 0]).scanScheduled = 0 := by
  decide

/-- C4 (amended): every checkin decrements owed, but only the checkin
triggered by a lease death also schedules the admission scan on the io loop;
when a scheduled scan runs with capacity free it admits the queued head
request; the checkin performed by a failing dispatch neither runs nor
schedules the admission scan and leaves the queue and the admission history
untouched. -/
theorem claim4_amended (s : PoolState) (c d r : Nat) (rest : List Nat)
    (hc : c ∈ s.leased) (hd : d ∈ s.establishing)
    (hq : s.queue = r :: rest) (hsch : s.scanScheduled ≠ 0)
    (how : s.owed < (s.maxConnections : Int)) :
    (onFairyDeref s c).owed = s.owed - 1 ∧
    (onFairyDeref s c).scanScheduled = s.scanScheduled + 1 ∧
    (pollFail s d).owed = s.owed - 1 ∧
    (pollFail s d).scanScheduled = s.scanScheduled ∧
    (pollFail s d).queue = s.queue ∧
    (pollFail s d).admitted = s.admitted ∧
    (∃ t, (runScheduledScan s).admitted = s.admitted ++ r :: t) := by
  obtain ⟨a1, a2, a3, a4, a5, a6, a7, a8, a9⟩ := onFairyDeref_fields s c hc
  obtain ⟨b1, b2, b3, b4, b5, b6, b7, b8, b9, b10⟩ :=
    checkin_fields { s with establishing := s.establishing.erase d } d true
  have f1 : (checkin { s with establishing := s.establishing.erase d } d true).owed
      = s.owed - 1 := b1
  have f5 : (checkin { s with establishing := s.establishing.erase d } d true).queue
      = s.queue := b5
  have f6 : (checkin { s with establishing := s.establishing.erase d } d true).admitted
      = s.admitted := b6
  have f8 : (checkin { s with establishing := s.establishing.erase d } d true).scanScheduled
      = s.scanScheduled := b8
  refine ⟨a1, a7, ?_, ?_, ?_, ?_, ?_⟩
  · rw [pollFail_pos s d hd]
    exact f1
  · rw [pollFail_pos s d hd]
    exact f8
  · rw [pollFail_pos s d hd]
    exact f5
  · rw [pollFail_pos s d hd]
    exact f6
  · rw [runScheduledScan_pos s hsch]
    exact processQueue_admits_head { s with scanScheduled := s.scanScheduled - 1 } r rest hq how

/-- Witness for the amended C4 at a concrete mid-flight pool state. -/
theorem claim4_amended_witness :
    (ConnectionPool.onFairyDeref samplePool 5).owed = samplePool.owed - 1 ∧
    (ConnectionPool.onFairyDeref samplePool 5).scanScheduled = samplePool.scanScheduled + 1 ∧
    (ConnectionPool.pollFail samplePool 7).owed = samplePool.owed - 1 ∧
    (ConnectionPool.pollFail samplePool 7).scanScheduled = samplePool.scanScheduled ∧
    (ConnectionPool.pollFail samplePool 7).queue = samplePool.queue ∧
    (ConnectionPool.pollFail samplePool 7).admitted = samplePool.admitted ∧
    (∃ t, (ConnectionPool.runScheduledScan samplePool).admitted
        = samplePool.admitted ++ 3 :: t) :=
  claim4_amended samplePool 5 7 3 [] (by decide) (by decide) (by decide) (by decide) (by decide)

/-- C5: when opening a new connection for a fresh request fails (the connect
poll raises or reports an error state), the request completion receives
exactly the one connectivity error, owed returns to the value it had before
the request was admitted, nothing is added to the idle sequence, and the
failed connection is closed. -/
theorem claim5 (s : PoolState) (hq : s.queue = []) (hi : s.idle = [])
    (ho : s.owed < (s.maxConnections : Int)) :
    (ConnectionPool.pollFail (ConnectionPool.cursor s) s.nextConn).owed = s.owed ∧
    (ConnectionPool.pollFail (ConnectionPool.cursor s) s.nextConn).idle = [] ∧
    s.nextConn ∈ (ConnectionPool.pollFail (ConnectionPool.cursor s) s.nextConn).closedConns ∧
    completions (tick 0 PollResult.raises) = [Completion.failure PollError.raised] := by
  have hcur := cursor_admits_fresh s hq hi ho
  set s1 := ConnectionPool.cursor s with hs1
  have howed : s1.owed = s.owed + 1 := by rw [hcur]
  have hidle : s1.idle = s.idle := by rw [hcur]
  have hmem : s.nextConn ∈ s1.establishing := by
    rw [hcur]
    simp
  rw [pollFail_pos s1 s.nextConn hmem, checkin_true_spec]
  refine ⟨?_, ?_, ?_, by decide⟩
  · show s1.owed - 1 = s.owed
    rw [howed]
    omega
  · show s1.idle = []
    rw [hidle]
    exact hi
  · show s.nextConn ∈ s1.closedConns ++ [s.nextConn]
    simp

/-- Witness for C5 on a fresh pool with max_connections equal to 1. -/
theorem claim5_witness :
    (ConnectionPool.pollFail (ConnectionPool.cursor (mkPool 1)) (mkPool 1).nextConn).owed
        = (mkPool 1).owed ∧
    (ConnectionPool.pollFail (ConnectionPool.cursor (mkPool 1)) (mkPool 1).nextConn).idle
        = [] ∧
    (mkPool 1).nextConn ∈
      (ConnectionPool.pollFail (ConnectionPool.cursor (mkPool 1)) (mkPool 1).nextConn).closedConns ∧
    completions (tick 0 PollResult.raises) = [Completion.failure PollError.raised] :=
  claim5 (mkPool 1) rfl rfl (by decide)

/-- C6 counterexample: with max_connections equal to 2, lease connections 0
and 1, return 0 first and then 1, so that 1 is the most recently returned
idle connection; a following acquisition nevertheless reuses connection 0,
the least recently returned, leaving 1 idle — refuting reuse of the most
recently returned idle connection. -/
theorem claim6_counterexample :
    (run (mkPool 2) [Event.cursor, Event.cursor, Event.pollOk 0, Event.pollOk 1,
        Event.deref 0, Event.deref 1, Event.cursor]).establishing = [0] ∧
    (run (mkPool 2) [Event.cursor, Event.cursor, Event.pollOk 0, Event.pollOk 1,
        Event.deref 0, Event.deref 1, Event.cursor]).idle = [1] ∧
    (run (mkPool 2) [Event.cursor, Event.cursor, Event.pollOk 0, Event.pollOk 1,
        Event.deref 0, Event.deref 1, Event.cursor]).nextConn = 2 := by
  decide

/-- C6 (amended): whenever a dispatch runs while the idle deque is non-empty
it reuses the least recently returned (oldest) idle connection, popped from
the left end of the deque, and opens no new connection; with max_connections
equal to 1 the scenario holds as stated: acquire A, queue B, release A, and
B completes reusing the one connection A held, with no new connect call. -/
theorem claim6_amended (s : PoolState) (r c : Nat) (rest : List Nat)
    (h : s.idle = c :: rest) :
    (dispatch s r).establishing = s.establishing ++ [c] ∧
    (dispatch s r).idle = rest ∧
    (dispatch s r).nextConn = s.nextConn ∧
    ((run (mkPool 1) [Event.cursor, Event.pollOk 0, Event.cursor, Event.deref 0,
        Event.procQueue, Event.pollOk 0]).leased = [0] ∧
      (run (mkPool 1) [Event.cursor, Event.pollOk 0, Event.cursor, Event.deref 0,
        Event.procQueue, Event.pollOk 0]).nextConn = 1 ∧
      (run (mkPool 1) [Event.cursor, Event.pollOk 0, Event.cursor, Event.deref 0,
        Event.procQueue, Event.pollOk 0]).idle = [] ∧
      (run (mkPool 1) [Event.cursor, Event.pollOk 0, Event.cursor, Event.deref 0,
        Event.procQueue, Event.pollOk 0]).admitted = [0, 1]) := by
  refine ⟨?_, ?_, ?_, by decide⟩
  · simp [dispatch, h]
  · simp [dispatch, h]
  · simp [dispatch, h]

/-- Witness for the amended C6 at a pool holding idle connections 4 and 9,
4 returned first: the dispatch reuses 4 and opens nothing. -/
theorem claim6_amended_witness :
    (ConnectionPool.dispatch sampleIdlePool 2).establishing
        = sampleIdlePool.establishing ++ [4] ∧
    (ConnectionPool.dispatch sampleIdlePool 2).idle = [9] ∧
    (ConnectionPool.dispatch sampleIdlePool 2).nextConn = sampleIdlePool.nextConn :=
  ⟨(claim6_amended sampleIdlePool 2 4 [9] rfl).1,
   (claim6_amended sampleIdlePool 2 4 [9] rfl).2.1,
   (claim6_amended sampleIdlePool 2 4 [9] rfl).2.2.1⟩

end Squirrel

namespace Squirrel

/-! ## Lease death, shutdown, and the warn-once flag -/

open ConnectionPool

/-- C7: the death of a lease handle triggers exactly one checkin of its
connection — the weak reference consumes the lease, so a second dereference
of the same handle is a no-op — and lease death is the only path that adds a
connection to the idle deque; the checkin appends the connection to idle
unless the pool is closed or the connection is already closed, in which case
the connection ends up closed and the idle deque is unchanged. -/
theorem claim7 (s t : PoolState) (c x : Nat) (e : Event) (hc : s.leased.count c = 1) :
    (onFairyDeref s c).owed = s.owed - 1 ∧
    (onFairyDeref s c).leased = s.leased.erase c ∧
    onFairyDeref (onFairyDeref s c) c = onFairyDeref s c ∧
    (s.closed = false → s.closedConns.contains c = false →
      (onFairyDeref s c).idle = s.idle ++ [c]) ∧
    (s.closed = true ∨ s.closedConns.contains c = true →
      (onFairyDeref s c).idle = s.idle ∧
      (onFairyDeref s c).closedConns.contains c = true) ∧
    (x ∈ (step t e).idle → x ∈ t.idle ∨ e = Event.deref x) := by
  have hm : c ∈ s.leased := List.count_pos_iff.mp (by omega)
  obtain ⟨a1, a2, a3, a4, a5, a6, a7, a8, a9⟩ := onFairyDeref_fields s c hm
  have hcount0 : (onFairyDeref s c).leased.count c = 0 := by
    rw [a3, List.count_erase_self, hc]
  have hnm : c ∉ (onFairyDeref s c).leased := by
    intro hmem
    have hpos := List.count_pos_iff.mpr hmem
    omega
  refine ⟨a1, a3, onFairyDeref_neg _ c hnm, ?_, ?_, ?_⟩
  · intro h1 h2
    rw [onFairyDeref_pos s c hm,
      checkin_false_open { s with leased := s.leased.erase c } c h1 h2]
  · intro hor
    rw [onFairyDeref_pos s c hm]
    by_cases hcl : s.closed = true
    · rw [checkin_false_poolClosed { s with leased := s.leased.erase c } c hcl]
      refine ⟨rfl, ?_⟩
      show (s.closedConns ++ [c]).contains c = true
      simp
    · have hclf : s.closed = false := by simpa using hcl
      have h2 : s.closedConns.contains c = true := by
        rcases hor with h | h
        · exact absurd h hcl
        · exact h
      rw [checkin_false_connClosed { s with leased := s.leased.erase c } c hclf h2]
      exact ⟨rfl, h2⟩
  · intro hx
    cases e with
    | cursor =>
        left
        have hx2 : x ∈ (processQueueGo
            ({ t with queue := t.queue ++ [t.nextReq], nextReq := t.nextReq + 1 } : PoolState).queue.length
            { t with queue := t.queue ++ [t.nextReq], nextReq := t.nextReq + 1 }).idle := hx
        exact processQueueGo_idle_mem _
          { t with queue := t.queue ++ [t.nextReq], nextReq := t.nextReq + 1 } x hx2
    | pollOk d =>
        left
        by_cases hm2 : d ∈ t.establishing
        · rw [show step t (Event.pollOk d) = ConnectionPool.pollOk t d from rfl,
            pollOk_pos t d hm2] at hx
          exact hx
        · rw [show step t (Event.pollOk d) = ConnectionPool.pollOk t d from rfl,
            pollOk_neg t d hm2] at hx
          exact hx
    | pollFail d =>
        left
        by_cases hm2 : d ∈ t.establishing
        · rw [show step t (Event.pollFail d) = ConnectionPool.pollFail t d from rfl,
            pollFail_pos t d hm2, checkin_true_spec] at hx
          exact hx
        · rw [show step t (Event.pollFail d) = ConnectionPool.pollFail t d from rfl,
            pollFail_neg t d hm2] at hx
          exact hx
    | deref d =>
        by_cases hm2 : d ∈ t.leased
        · rw [show step t (Event.deref d) = ConnectionPool.onFairyDeref t d from rfl,
            onFairyDeref_pos t d hm2] at hx
          by_cases hcl : t.closed = true
          · rw [checkin_false_poolClosed { t with leased := t.leased.erase d } d hcl] at hx
            exact Or.inl hx
          · have hclf : t.closed = false := by simpa using hcl
            by_cases h2 : t.closedConns.contains d = true
            · rw [checkin_false_connClosed { t with leased := t.leased.erase d } d hclf h2] at hx
              exact Or.inl hx
            · rw [checkin_false_open { t with leased := t.leased.erase d } d hclf
                (by simpa using h2)] at hx
              have hx2 : x ∈ t.idle ++ [d] := hx
              rcases List.mem_append.mp hx2 with h | h
              · exact Or.inl h
              · right
                have hxd : x = d := by simpa using h
                rw [hxd]
        · rw [show step t (Event.deref d) = ConnectionPool.onFairyDeref t d from rfl,
            onFairyDeref_neg t d hm2] at hx
          exact Or.inl hx
    | close => simp [step, ConnectionPool.close] at hx
    | procQueue =>
        left
        by_cases hs : t.scanScheduled ≠ 0
        · rw [show step t Event.procQueue = ConnectionPool.runScheduledScan t from rfl,
            runScheduledScan_pos t hs] at hx
          exact processQueueGo_idle_mem _ { t with scanScheduled := t.scanScheduled - 1 } x hx
        · rw [show step t Event.procQueue = ConnectionPool.runScheduledScan t from rfl,
            runScheduledScan_neg t hs] at hx
          exact hx

/-- Witness for C7 at a concrete pool state holding lease 5. -/
theorem claim7_witness :
    (ConnectionPool.onFairyDeref samplePool 5).owed = samplePool.owed - 1 ∧
    (ConnectionPool.onFairyDeref samplePool 5).leased = samplePool.leased.erase 5 ∧
    ConnectionPool.onFairyDeref (ConnectionPool.onFairyDeref samplePool 5) 5
        = ConnectionPool.onFairyDeref samplePool 5 ∧
    (ConnectionPool.onFairyDeref samplePool 5).idle = samplePool.idle ++ [5] ∧
    (5 ∈ samplePool.idle ∨ Event.deref 5 = Event.deref 5) :=
  ⟨(claim7 samplePool samplePool 5 5 (Event.deref 5) (by decide)).1,
   (claim7 samplePool samplePool 5 5 (Event.deref 5) (by decide)).2.1,
   (claim7 samplePool samplePool 5 5 (Event.deref 5) (by decide)).2.2.1,
   (claim7 samplePool samplePool 5 5 (Event.deref 5) (by decide)).2.2.2.1 (by decide) (by decide),
   (claim7 samplePool samplePool 5 5 (Event.deref 5) (by decide)).2.2.2.2.2 (by decide)⟩

/-- C8: close (shutdown) is idempotent, marks the pool closed, closes every
currently idle connection leaving the idle deque empty, does not cancel
queued or in-flight work (queue, establishing, leases and owed are
untouched), and a lease handle released afterwards without error has its
connection closed rather than re-idled. -/
theorem claim8 (s : PoolState) (c : Nat) (hc : c ∈ s.leased) :
    ConnectionPool.close (ConnectionPool.close s) = ConnectionPool.close s ∧
    (ConnectionPool.close s).closed = true ∧
    (ConnectionPool.close s).idle = [] ∧
    (∀ d ∈ s.idle, d ∈ (ConnectionPool.close s).closedConns) ∧
    (ConnectionPool.close s).queue = s.queue ∧
    (ConnectionPool.close s).leased = s.leased ∧
    (ConnectionPool.close s).establishing = s.establishing ∧
    (ConnectionPool.close s).owed = s.owed ∧
    (ConnectionPool.onFairyDeref (ConnectionPool.close s) c).idle = [] ∧
    c ∈ (ConnectionPool.onFairyDeref (ConnectionPool.close s) c).closedConns := by
  have hm : c ∈ (ConnectionPool.close s).leased := hc
  refine ⟨?_, rfl, rfl, ?_, rfl, rfl, rfl, rfl, ?_, ?_⟩
  · simp [ConnectionPool.close]
  · intro d hd
    show d ∈ s.closedConns ++ s.idle.reverse
    exact List.mem_append.mpr (Or.inr (by simpa using hd))
  · rw [onFairyDeref_pos (ConnectionPool.close s) c hm,
      checkin_false_poolClosed
        { ConnectionPool.close s with leased := (ConnectionPool.close s).leased.erase c } c rfl]
    rfl
  · rw [onFairyDeref_pos (ConnectionPool.close s) c hm,
      checkin_false_poolClosed
        { ConnectionPool.close s with leased := (ConnectionPool.close s).leased.erase c } c rfl]
    show c ∈ (ConnectionPool.close s).closedConns ++ [c]
    simp

/-- Witness for C8 at a concrete pool state holding lease 5. -/
theorem claim8_witness :
    ConnectionPool.close (ConnectionPool.close samplePool) = ConnectionPool.close samplePool ∧
    (ConnectionPool.close samplePool).idle = [] ∧
    (ConnectionPool.onFairyDeref (ConnectionPool.close samplePool) 5).idle = [] ∧
    5 ∈ (ConnectionPool.onFairyDeref (ConnectionPool.close samplePool) 5).closedConns :=
  ⟨(claim8 samplePool 5 (by decide)).1,
   (claim8 samplePool 5 (by decide)).2.2.1,
   (claim8 samplePool 5 (by decide)).2.2.2.2.2.2.2.2.1,
   (claim8 samplePool 5 (by decide)).2.2.2.2.2.2.2.2.2⟩

theorem accessRepeat_warned (w : FairyWorld) (i : Nat) (n : Nat)
    (h : CursorFairy.readWarnFlag w i = true) :
    CursorFairy.accessRepeat w i n = (0, w) := by
  induction n with
  | zero => rfl
  | succ n ih =>
      simp [CursorFairy.accessRepeat, CursorFairy.connectionAccess, h, ih]

/-- C10: the direct-access warning of the connection property fires exactly
once per handle instance: on a fresh world the first access on handle i
warns and every later access on i does not, a different handle j still warns
on its own first access even though i has already warned, and the
class-level flag is never written because the assignment creates a shadowing
instance attribute. -/
theorem claim10 (i j n : Nat) (hij : i ≠ j) (hn : 1 ≤ n) :
    (CursorFairy.accessRepeat freshFairyWorld i n).1 = 1 ∧
    (CursorFairy.connectionAccess (CursorFairy.connectionAccess freshFairyWorld i).2 j).1
        = true ∧
    ((CursorFairy.accessRepeat freshFairyWorld i n).2).classWarn = false := by
  obtain ⟨k, rfl⟩ : ∃ k, n = k + 1 := ⟨n - 1, by omega⟩
  have hji : j ≠ i := Ne.symm hij
  have hacc : CursorFairy.connectionAccess freshFairyWorld i =
      (true, { classWarn := false, instWarn := fun t => if t = i then some true else none }) := by
    simp [CursorFairy.connectionAccess, CursorFairy.readWarnFlag, freshFairyWorld]
  have hw1 : CursorFairy.readWarnFlag
      { classWarn := false, instWarn := fun t => if t = i then some true else none } i
      = true := by
    simp [CursorFairy.readWarnFlag]
  have hrep := accessRepeat_warned
    { classWarn := false, instWarn := fun t => if t = i then some true else none } i k hw1
  refine ⟨?_, ?_, ?_⟩
  · show (CursorFairy.accessRepeat freshFairyWorld i (k + 1)).1 = 1
    simp [CursorFairy.accessRepeat, hacc, hrep]
  · rw [hacc]
    simp [CursorFairy.connectionAccess, CursorFairy.readWarnFlag, hji]
  · show ((CursorFairy.accessRepeat freshFairyWorld i (k + 1)).2).classWarn = false
    simp [CursorFairy.accessRepeat, hacc, hrep]

/-- Witness for C10: two accesses on handle 0 warn exactly once, and handle
1 still warns on its first access afterwards. -/
theorem claim10_witness :
    (CursorFairy.accessRepeat freshFairyWorld 0 2).1 = 1 ∧
    (CursorFairy.connectionAccess (CursorFairy.connectionAccess freshFairyWorld 0).2 1).1
        = true :=
  ⟨(claim10 0 1 2 (by decide) (by decide)).1, (claim10 0 1 2 (by decide) (by decide)).2.1⟩

end Squirrel
